import Mathlib

/-!
Verification of the fixed-capacity first-fit arena allocator (`AlphaAlocator`,
`src/src/main.rs`).

Shallow embedding notes:
* Machine integers (`usize`) are modelled as `Nat`.  Every subtraction the
  Rust code performs is guarded in the proofs by the hypotheses under which
  the code runs it without underflow, so `Nat` truncated subtraction agrees
  with the `usize` subtraction at every point where a theorem uses it.
* The arena's payload bytes are never read or written by the allocator (it
  only manages offset ranges), so the `memory` array is represented by its
  base address (a `Nat` parameter) and its length (the capacity).
* `find_free_offset` reads `self.memory.len()`; the length is passed as the
  explicit parameter `cap`, instantiated with `MEMORY_SIZE` by the engine.
* Rust panics (`alloc` failure branches) and `eprintln` reports (`dealloc`
  failure branches) are modelled as explicit error values, paired with the
  allocator state at the moment of the panic/report.
* The source sorts live blocks with an in-place bubble sort over the index
  field; it is embedded as `List.insertionSort` over the same order.  Both
  compute an index-sorted permutation of the live blocks, and theorem
  `slots_sorted_unique` below shows that when the live blocks are pairwise
  disjoint (the only situations the theorems speak about) the index-sorted
  permutation is unique, so the choice of sorting algorithm is immaterial.
-/

/-- Constant `MEMORY_SIZE` from the source: the arena capacity in bytes. -/
def MEMORY_SIZE : Nat := 30000

/-- Constant `SLOT_SIZE` from the source: capacity of the live-allocation table. -/
def SLOT_SIZE : Nat := 100

/-- Constant `HISTORIC_SIZE` from the source: capacity of the history journal. -/
def HISTORIC_SIZE : Nat := 400

/-- Record `Slot` from the source: `index` is the block's starting offset,
`size` its length; `size = 0` marks an empty table slot. -/
structure Slot where
  size : Nat
  index : Nat
deriving Repr, DecidableEq

/-- State of `AlphaAlocator`: the call counter, the free-byte counter, the
live-allocation table and the history journal.  The `memory` byte array
carries no allocator state beyond its base address and length, which are
passed to the operations as parameters. -/
structure AlphaAlocator where
  times_called : Nat
  free : Nat
  used_slots : List Slot
  historic : List (Option Nat)
deriving Repr, DecidableEq

/-- Constructor `AlphaAlocator::new` / the static initializer: empty table,
empty journal, free-byte counter equal to the capacity. -/
def AlphaAlocator.new (cap : Nat) : AlphaAlocator :=
  { times_called := 0
    free := cap
    used_slots := List.replicate SLOT_SIZE { size := 0, index := 0 }
    historic := List.replicate HISTORIC_SIZE none }

/-- Method `reg_historic`: store the requested size in the first empty
journal slot; silently drop it when the journal is full. -/
def reg_historic : List (Option Nat) → Nat → List (Option Nat)
  | [], _ => []
  | none :: rest, s => some s :: rest
  | some v :: rest, s => some v :: reg_historic rest s

/-- Method `identify_adress`: translate a pointer to an offset when it lies
inside `[base, base + cap)`, where `cap` is `self.memory.len()`. -/
def identify_adress (base cap ptr : Nat) : Option Nat :=
  if ptr < base then none
  else if ptr - base < cap then some (ptr - base) else none

/-- Order used by the source's bubble sort: compare blocks by offset. -/
def idxLe (a b : Slot) : Prop := a.index ≤ b.index

instance : DecidableRel idxLe := fun a b => Nat.decLe a.index b.index

instance : IsTotal Slot idxLe := ⟨fun a b => Nat.le_total a.index b.index⟩

instance : IsTrans Slot idxLe := ⟨fun _ _ _ h h2 => Nat.le_trans h h2⟩

/-- Step 1 of `find_free_offset`: the live blocks (`size > 0`) collected
from the table, in table order. -/
def liveBlocks (slots : List Slot) : List Slot :=
  slots.filter (fun s => decide (0 < s.size))

/-- Step 2 of `find_free_offset`: the live blocks sorted by ascending
offset (the source bubble-sorts `temp_blocks` on `index`). -/
def sortByIndex (bs : List Slot) : List Slot :=
  List.insertionSort idxLe bs

/-- Steps 4 and 5 of `find_free_offset`: walk the sorted blocks looking at
the gap after each one (`next.index - (this.index + this.size)` between
consecutive blocks, `cap - (last.index + last.size)` after the last). -/
def scan_gaps (cap size : Nat) : List Slot → Option Nat
  | [] => none
  | [b] =>
    if cap - (b.index + b.size) ≥ size then some (b.index + b.size) else none
  | b :: b2 :: rest =>
    if b2.index - (b.index + b.size) ≥ size then some (b.index + b.size)
    else scan_gaps cap size (b2 :: rest)

/-- Method `find_free_offset`: first-fit search for `size` bytes over the
address-sorted live blocks; `cap` is `self.memory.len()`. -/
def find_free_offset (cap : Nat) (slots : List Slot) (size : Nat) : Option Nat :=
  match sortByIndex (liveBlocks slots) with
  | [] => if size ≤ cap then some 0 else none
  | first :: rest =>
    if first.index ≥ size then some 0
    else scan_gaps cap size (first :: rest)

/-- Method `register_slot`: store `(offset, size)` in the first empty table
slot; `none` models the `false` (no free slot) return. -/
def register_slot : List Slot → Nat → Nat → Option (List Slot)
  | [], _, _ => none
  | s :: rest, offset, size =>
    if s.size = 0 then some ({ size := size, index := offset } :: rest)
    else (register_slot rest offset size).map (s :: ·)

/-- Dealloc's table search-and-clear: find the first slot whose `index`
equals the offset (the source checks only `s.index == offset`, not
`s.size > 0`) and zero it; `none` models the "não achou slot" report. -/
def clear_slot : List Slot → Nat → Option (List Slot)
  | [], _ => none
  | s :: rest, offset =>
    if s.index = offset then some ({ size := 0, index := 0 } :: rest)
    else (clear_slot rest offset).map (s :: ·)

/-- Failure reasons of `alloc` (the three panic branches). -/
inductive AllocError where
  | insufficientTotal
  | fragmentation
  | tableExhausted
deriving Repr, DecidableEq

/-- Failure reports of `dealloc` (the two `eprintln` branches). -/
inductive ReleaseError where
  | unknownAddress
  | noMatchingBlock
deriving Repr, DecidableEq

instance {ε α : Type} [DecidableEq ε] [DecidableEq α] : DecidableEq (Except ε α) := fun a b =>
  match a, b with
  | Except.ok x, Except.ok y =>
    if h : x = y then isTrue (congrArg Except.ok h)
    else isFalse (fun hc => h (Except.ok.inj hc))
  | Except.error x, Except.error y =>
    if h : x = y then isTrue (congrArg Except.error h)
    else isFalse (fun hc => h (Except.error.inj hc))
  | Except.ok _, Except.error _ => isFalse nofun
  | Except.error _, Except.ok _ => isFalse nofun

/-- Method `alloc`: journal the request, bump the call counter, reject when
the request exceeds the free-byte counter, otherwise locate a gap, register
the block and decrement the counter.  Returns the state at completion (or at
the panic point) and either the returned offset (the pointer is
`base + offset`) or the panic reason. -/
def AlphaAlocator.alloc (cap : Nat) (st : AlphaAlocator) (size : Nat) :
    AlphaAlocator × Except AllocError Nat :=
  let st1 : AlphaAlocator :=
    { st with
      historic := reg_historic st.historic size
      times_called := st.times_called + 1 }
  if st1.free < size then (st1, Except.error AllocError.insufficientTotal)
  else
    match find_free_offset cap st1.used_slots size with
    | some offset =>
      match register_slot st1.used_slots offset size with
      | some slots =>
        ({ st1 with used_slots := slots, free := st1.free - size },
          Except.ok offset)
      | none => (st1, Except.error AllocError.tableExhausted)
    | none => (st1, Except.error AllocError.fragmentation)

/-- Method `dealloc`: translate the pointer, find the first table slot whose
`index` matches the offset, zero it and credit `layout.size()` back to the
free-byte counter.  Returns the state and the reported error, if any. -/
def AlphaAlocator.dealloc (base cap : Nat) (st : AlphaAlocator)
    (ptr layoutSize : Nat) : AlphaAlocator × Option ReleaseError :=
  match identify_adress base cap ptr with
  | some offset =>
    match clear_slot st.used_slots offset with
    | some slots =>
      ({ st with used_slots := slots, free := st.free + layoutSize }, none)
    | none => (st, some ReleaseError.noMatchingBlock)
  | none => (st, some ReleaseError.unknownAddress)

/-- An operation against the installed allocator: an allocation request of
`size` bytes, or a release of pointer `ptr` with a layout of `layoutSize`
bytes. -/
inductive Op where
  | alloc (size : Nat)
  | dealloc (ptr : Nat) (layoutSize : Nat)
deriving Repr, DecidableEq

/-- One operation applied to the allocator state. -/
def step (base cap : Nat) (st : AlphaAlocator) : Op → AlphaAlocator
  | Op.alloc s => (AlphaAlocator.alloc cap st s).1
  | Op.dealloc p s => (AlphaAlocator.dealloc base cap st p s).1

/-- Run a sequence of operations from the freshly initialized allocator. -/
def runOps (base cap : Nat) (ops : List Op) : AlphaAlocator :=
  ops.foldl (step base cap) (AlphaAlocator.new cap)

/-- Two blocks occupy disjoint ranges `[index, index + size)`. -/
def blockDisjoint (a b : Slot) : Prop :=
  a.index + a.size ≤ b.index ∨ b.index + b.size ≤ a.index

instance (a b : Slot) : Decidable (blockDisjoint a b) :=
  inferInstanceAs (Decidable (_ ∨ _))

/-- Guarded disjointness: holds trivially when either record is an empty
slot, and demands disjoint ranges when both are live. -/
def liveOk (a b : Slot) : Prop := a.size = 0 ∨ b.size = 0 ∨ blockDisjoint a b

instance (a b : Slot) : Decidable (liveOk a b) :=
  inferInstanceAs (Decidable (_ ∨ _ ∨ _))

/-- No two live records of the table overlap. -/
def liveDisjoint (slots : List Slot) : Prop := slots.Pairwise liveOk

instance (slots : List Slot) : Decidable (liveDisjoint slots) :=
  inferInstanceAs (Decidable (List.Pairwise _ _))

/-- Every live record of the table lies inside the arena. -/
def inBounds (cap : Nat) (slots : List Slot) : Prop :=
  ∀ s ∈ slots, 0 < s.size → s.index + s.size ≤ cap

instance (cap : Nat) (slots : List Slot) : Decidable (inBounds cap slots) :=
  inferInstanceAs (Decidable (∀ s ∈ slots, _ → _))

/-- The table invariant maintained by every operation. -/
def AllocInv (cap : Nat) (st : AlphaAlocator) : Prop :=
  liveDisjoint st.used_slots ∧ inBounds cap st.used_slots

/-- Total number of bytes held by live blocks. -/
def sum_live (slots : List Slot) : Nat :=
  ((liveBlocks slots).map Slot.size).sum

/-- Registration fails when every table slot is occupied. -/
theorem register_slot_none_of_full (slots : List Slot) (off size : Nat)
    (h : ∀ s ∈ slots, 0 < s.size) : register_slot slots off size = none := by
  induction slots with
  | nil => rfl
  | cons s rest ih =>
    have hs : s.size ≠ 0 := Nat.pos_iff_ne_zero.mp (h s (List.mem_cons_self s rest))
    simp only [register_slot, if_neg hs]
    rw [ih (fun t ht => h t (List.mem_cons_of_mem s ht))]
    rfl

/-- Registration succeeds when some table slot is empty. -/
theorem register_slot_some_of_empty (slots : List Slot) (off size : Nat)
    (h : ∃ s ∈ slots, s.size = 0) :
    ∃ slots2, register_slot slots off size = some slots2 := by
  induction slots with
  | nil => simp at h
  | cons s rest ih =>
    by_cases hs : s.size = 0
    · exact ⟨{ size := size, index := off } :: rest,
        by simp only [register_slot, if_pos hs]⟩
    · obtain ⟨t, ht, ht0⟩ := h
      rcases List.mem_cons.mp ht with rfl | htr
      · exact absurd ht0 hs
      · obtain ⟨slots2, h2⟩ := ih ⟨t, htr, ht0⟩
        exact ⟨s :: slots2, by simp only [register_slot, if_neg hs, h2, Option.map_some']⟩

/-- Registering a zero-length record leaves the live blocks unchanged. -/
theorem register_slot_zero_live (slots slots2 : List Slot) (off : Nat)
    (h : register_slot slots off 0 = some slots2) :
    liveBlocks slots2 = liveBlocks slots := by
  induction slots generalizing slots2 with
  | nil => simp [register_slot] at h
  | cons s rest ih =>
    by_cases hs : s.size = 0
    · simp only [register_slot, if_pos hs] at h
      cases h
      simp [liveBlocks, List.filter_cons, hs]
    · simp only [register_slot, if_neg hs] at h
      cases hr : register_slot rest off 0 with
      | none => rw [hr] at h; cases h
      | some t =>
        rw [hr] at h
        cases h
        have ht := ih t hr
        simp only [liveBlocks] at ht ⊢
        simp only [List.filter_cons, ht]

/-- Locating space for a zero-byte request always succeeds at offset 0. -/
theorem find_free_offset_zero (cap : Nat) (slots : List Slot) :
    find_free_offset cap slots 0 = some 0 := by
  unfold find_free_offset
  cases h : sortByIndex (liveBlocks slots) with
  | nil => simp
  | cons b bs => simp [Nat.zero_le]

/-- C7: allocating more than the free-byte counter is rejected with the
insufficient-total out-of-memory error, and neither the live-allocation
table nor the free-byte counter changes. -/
theorem C7_insufficient_total (cap : Nat) (st : AlphaAlocator) (size : Nat)
    (h : st.free < size) :
    (AlphaAlocator.alloc cap st size).2 = Except.error AllocError.insufficientTotal ∧
    (AlphaAlocator.alloc cap st size).1.used_slots = st.used_slots ∧
    (AlphaAlocator.alloc cap st size).1.free = st.free := by
  simp [AlphaAlocator.alloc, if_pos h]

/-- Witness for C7 at a concrete input: a fresh allocator rejects a request
one byte above the capacity. -/
theorem C7_witness :
    (AlphaAlocator.new MEMORY_SIZE).free < 30001 ∧
    ((AlphaAlocator.alloc MEMORY_SIZE (AlphaAlocator.new MEMORY_SIZE) 30001).2 =
        Except.error AllocError.insufficientTotal ∧
      (AlphaAlocator.alloc MEMORY_SIZE (AlphaAlocator.new MEMORY_SIZE) 30001).1.used_slots =
        (AlphaAlocator.new MEMORY_SIZE).used_slots ∧
      (AlphaAlocator.alloc MEMORY_SIZE (AlphaAlocator.new MEMORY_SIZE) 30001).1.free =
        (AlphaAlocator.new MEMORY_SIZE).free) :=
  ⟨by decide, C7_insufficient_total MEMORY_SIZE (AlphaAlocator.new MEMORY_SIZE) 30001 (by decide)⟩

/-- C9: pointer-to-offset translation succeeds with `ptr - base` exactly on
`[base, base + MEMORY_SIZE)` and fails outside, including below the base. -/
theorem C9_identify_adress (base ptr : Nat) :
    identify_adress base MEMORY_SIZE ptr =
      if base ≤ ptr ∧ ptr < base + MEMORY_SIZE then some (ptr - base) else none := by
  unfold identify_adress MEMORY_SIZE
  split_ifs <;> first | rfl | omega

/-- C10: a zero-byte request in any state with an empty table slot succeeds
at offset 0 (the arena base address) and leaves the live blocks and the
free-byte counter unchanged, the registered record having length 0. -/
theorem C10_alloc_zero (cap : Nat) (st : AlphaAlocator)
    (h : ∃ s ∈ st.used_slots, s.size = 0) :
    (AlphaAlocator.alloc cap st 0).2 = Except.ok 0 ∧
    liveBlocks (AlphaAlocator.alloc cap st 0).1.used_slots = liveBlocks st.used_slots ∧
    (AlphaAlocator.alloc cap st 0).1.free = st.free := by
  obtain ⟨slots2, hreg⟩ := register_slot_some_of_empty st.used_slots 0 0 h
  have hlive := register_slot_zero_live st.used_slots slots2 0 hreg
  simp [AlphaAlocator.alloc, find_free_offset_zero, hreg, hlive]

/-- Witness for C10 at a concrete input: the fresh allocator. -/
theorem C10_witness :
    (∃ s ∈ (AlphaAlocator.new MEMORY_SIZE).used_slots, s.size = 0) ∧
    ((AlphaAlocator.alloc MEMORY_SIZE (AlphaAlocator.new MEMORY_SIZE) 0).2 = Except.ok 0 ∧
      liveBlocks (AlphaAlocator.alloc MEMORY_SIZE (AlphaAlocator.new MEMORY_SIZE) 0).1.used_slots =
        liveBlocks (AlphaAlocator.new MEMORY_SIZE).used_slots ∧
      (AlphaAlocator.alloc MEMORY_SIZE (AlphaAlocator.new MEMORY_SIZE) 0).1.free =
        (AlphaAlocator.new MEMORY_SIZE).free) :=
  ⟨by decide, C10_alloc_zero MEMORY_SIZE (AlphaAlocator.new MEMORY_SIZE) (by decide)⟩

/-- C6: when the budget and gap checks pass but every table slot is live,
the allocation is rejected with the table-exhaustion error and the
free-byte counter (and the table) are untouched. -/
theorem C6_table_exhaustion (cap : Nat) (st : AlphaAlocator) (size off : Nat)
    (hfull : ∀ s ∈ st.used_slots, 0 < s.size)
    (hbudget : size ≤ st.free)
    (hfind : find_free_offset cap st.used_slots size = some off) :
    (AlphaAlocator.alloc cap st size).2 = Except.error AllocError.tableExhausted ∧
    (AlphaAlocator.alloc cap st size).1.free = st.free ∧
    (AlphaAlocator.alloc cap st size).1.used_slots = st.used_slots := by
  have hreg := register_slot_none_of_full st.used_slots off size hfull
  simp [AlphaAlocator.alloc, Nat.not_lt.mpr hbudget, hfind, hreg]

/-- Table of `SLOT_SIZE` live one-byte blocks at offsets `0..99`, used as a
concrete table-exhaustion scenario. -/
def fullTable : List Slot :=
  (List.range SLOT_SIZE).map (fun i => { size := 1, index := i })

/-- Allocator state whose table is completely occupied. -/
def fullState : AlphaAlocator :=
  { times_called := 100
    free := 29900
    used_slots := fullTable
    historic := List.replicate HISTORIC_SIZE none }

/-- Witness for C6 at a concrete input: a full table with a genuine gap
after the last block. -/
theorem C6_witness :
    ((∀ s ∈ fullState.used_slots, 0 < s.size) ∧
      5 ≤ fullState.free ∧
      find_free_offset MEMORY_SIZE fullState.used_slots 5 = some 100) ∧
    ((AlphaAlocator.alloc MEMORY_SIZE fullState 5).2 = Except.error AllocError.tableExhausted ∧
      (AlphaAlocator.alloc MEMORY_SIZE fullState 5).1.free = fullState.free ∧
      (AlphaAlocator.alloc MEMORY_SIZE fullState 5).1.used_slots = fullState.used_slots) :=
  ⟨⟨by decide, by decide, by decide⟩,
    C6_table_exhaustion MEMORY_SIZE fullState 5 100 (by decide) (by decide) (by decide)⟩

/-- C8: first-fit determinism at the spec's example: from the fresh arena,
allocate(40) returns offset 0, a second allocate(40) returns offset 40, the
release of offset 0 succeeds, and allocate(30) reuses offset 0. -/
theorem C8_first_fit_reuse :
    (AlphaAlocator.alloc MEMORY_SIZE (runOps 0 MEMORY_SIZE []) 40).2 = Except.ok 0 ∧
    (AlphaAlocator.alloc MEMORY_SIZE (runOps 0 MEMORY_SIZE [Op.alloc 40]) 40).2 = Except.ok 40 ∧
    (AlphaAlocator.dealloc 0 MEMORY_SIZE (runOps 0 MEMORY_SIZE [Op.alloc 40, Op.alloc 40]) 0 40).2 =
      none ∧
    (AlphaAlocator.alloc MEMORY_SIZE
        (runOps 0 MEMORY_SIZE [Op.alloc 40, Op.alloc 40, Op.dealloc 0 40]) 30).2 =
      Except.ok 0 := by
  decide

/-- Operation sequence exhibiting the free-byte accounting bug: every
release in it targets the base-plus-offset address of a block returned by
an earlier allocation, with its original layout size, while that block is
live. -/
def C1seq : List Op :=
  [Op.alloc 10, Op.alloc 10, Op.dealloc 0 10, Op.alloc 20, Op.alloc 10,
    Op.dealloc 10 10, Op.dealloc 0 10]

/-- C1 evaluation: the intermediate allocations of `C1seq` return offsets
0, 10, 20 and 0 (so its releases of offsets 0, 10 and 0 are all releases of
live previously-returned blocks with their original sizes), yet after the
final release the free-byte counter exceeds `MEMORY_SIZE` minus the live
bytes by 10: the last release matched an empty table slot (`index = 0`)
instead of the live block at offset 0, because `dealloc` compares only
`s.index == offset`. -/
theorem C1_eval :
    (AlphaAlocator.alloc MEMORY_SIZE (runOps 0 MEMORY_SIZE []) 10).2 = Except.ok 0 ∧
    (AlphaAlocator.alloc MEMORY_SIZE (runOps 0 MEMORY_SIZE [Op.alloc 10]) 10).2 = Except.ok 10 ∧
    (AlphaAlocator.alloc MEMORY_SIZE
        (runOps 0 MEMORY_SIZE [Op.alloc 10, Op.alloc 10, Op.dealloc 0 10]) 20).2 =
      Except.ok 20 ∧
    (AlphaAlocator.alloc MEMORY_SIZE
        (runOps 0 MEMORY_SIZE [Op.alloc 10, Op.alloc 10, Op.dealloc 0 10, Op.alloc 20]) 10).2 =
      Except.ok 0 ∧
    (runOps 0 MEMORY_SIZE C1seq).free = 29980 ∧
    sum_live (runOps 0 MEMORY_SIZE C1seq).used_slots = 30 ∧
    (runOps 0 MEMORY_SIZE C1seq).free + sum_live (runOps 0 MEMORY_SIZE C1seq).used_slots ≠
      MEMORY_SIZE := by
  decide

/-- C4 evaluation: releasing the arena base address on the fresh allocator
(an address never returned by any allocation) is silently accepted — no
error is reported — and the free-byte counter grows by the layout size,
because the first empty slot has `index = 0` and `dealloc` matches it. -/
theorem C4_eval :
    (AlphaAlocator.dealloc 0 MEMORY_SIZE (AlphaAlocator.new MEMORY_SIZE) 0 10).2 = none ∧
    (AlphaAlocator.dealloc 0 MEMORY_SIZE (AlphaAlocator.new MEMORY_SIZE) 0 10).1.free =
      MEMORY_SIZE + 10 ∧
    (AlphaAlocator.dealloc 0 MEMORY_SIZE (AlphaAlocator.new MEMORY_SIZE) 0 10).1.used_slots =
      (AlphaAlocator.new MEMORY_SIZE).used_slots := by
  decide

/-- Table holding three live 10-byte blocks at offsets 0, 20 and 40. -/
def C5table : List Slot :=
  { size := 10, index := 0 } :: { size := 10, index := 20 } ::
    { size := 10, index := 40 } :: List.replicate 97 { size := 0, index := 0 }

/-- The spec's fragmentation scenario over a capacity-100 arena: free-byte
counter 70 (capacity 100 minus 30 live bytes). -/
def C5state : AlphaAlocator :=
  { times_called := 3
    free := 70
    used_slots := C5table
    historic := List.replicate HISTORIC_SIZE none }

/-- Counterexample to C5 as stated: with capacity 100 and live 10-byte
blocks at offsets 0, 20 and 40, allocate(15) is not rejected — the gap
after the last block is 50 bytes, so it succeeds at offset 50 (and the
total free bytes are 70, not 55). -/
theorem C5_counterexample :
    liveBlocks C5state.used_slots =
      [{ size := 10, index := 0 }, { size := 10, index := 20 }, { size := 10, index := 40 }] ∧
    C5state.free = 70 ∧
    (AlphaAlocator.alloc 100 C5state 15).2 = Except.ok 50 := by
  decide

/-- The same fragmentation scenario over a capacity-60 arena, where the
gaps between and after the blocks really are 10 bytes each. -/
def C5state60 : AlphaAlocator :=
  { times_called := 3
    free := 30
    used_slots := C5table
    historic := List.replicate HISTORIC_SIZE none }

/-- C5 amended: with capacity 60, three live 10-byte blocks at offsets 0,
20 and 40 leave 10-byte gaps between and after them, and allocate(15) is
rejected with the fragmentation error even though the total free bytes
(30) exceed 15. -/
theorem C5_amended_fragmentation :
    liveBlocks C5state60.used_slots =
      [{ size := 10, index := 0 }, { size := 10, index := 20 }, { size := 10, index := 40 }] ∧
    C5state60.free = 30 ∧
    15 < C5state60.free ∧
    (AlphaAlocator.alloc 60 C5state60 15).2 = Except.error AllocError.fragmentation := by
  decide

/-- Strict offset order, used to state that an address-sorted view of
pairwise-disjoint live blocks is unique. -/
def idxLt (a b : Slot) : Prop := a.index < b.index

instance : DecidableRel idxLt := fun a b => Nat.decLt a.index b.index

instance : IsAntisymm Slot idxLt :=
  ⟨fun _ _ h1 h2 => absurd (Nat.lt_trans h1 h2) (Nat.lt_irrefl _)⟩

/-- Specification-side first-fit locator, written from the claim's words:
with no live blocks succeed at 0 when `S ≤ cap`; succeed at 0 when the
first address-sorted block starts at or after `S`; otherwise return the end
of the first block (in ascending address order) whose following gap —
`next.index` minus the block's end, or `cap` minus the end for the last
block — is at least `S`; fail when no such gap exists.  The gap after each
block is read off by pairing the sorted view with its successor view closed
by a sentinel of length 0 at offset `cap`. -/
def spec_first_fit (cap : Nat) (bs : List Slot) (S : Nat) : Option Nat :=
  match bs with
  | [] => if S ≤ cap then some 0 else none
  | first :: _ =>
    if S ≤ first.index then some 0
    else
      match (bs.zip (bs.drop 1 ++ [{ size := 0, index := cap }])).find?
          (fun p => decide (S ≤ p.2.index - (p.1.index + p.1.size))) with
      | some p => some (p.1.index + p.1.size)
      | none => none

/-- The code's gap scan agrees with the successor-pairing formulation of
the spec on every block list. -/
theorem scan_gaps_eq_spec (cap S : Nat) (b : Slot) (rest : List Slot) :
    scan_gaps cap S (b :: rest) =
      match ((b :: rest).zip (rest ++ [{ size := 0, index := cap }])).find?
          (fun p => decide (S ≤ p.2.index - (p.1.index + p.1.size))) with
      | some p => some (p.1.index + p.1.size)
      | none => none := by
  induction rest generalizing b with
  | nil =>
    simp only [scan_gaps, List.zip, List.zipWith, List.find?]
    by_cases h : S ≤ cap - (b.index + b.size)
    · rw [if_pos h]
      simp [h]
    · rw [if_neg h]
      simp [h]
  | cons b2 rest2 ih =>
    simp only [scan_gaps, List.zip, List.zipWith, List.find?]
    by_cases h : S ≤ b2.index - (b.index + b.size)
    · rw [if_pos h]
      simp [h]
    · rw [if_neg h]
      simp only [h, decide_eq_true_eq, decide_eq_false_iff_not, not_false_iff]
      rw [ih b2]
      simp [h, List.zip]

/-- Live blocks of a table without overlaps have pairwise distinct
offsets. -/
theorem liveBlocks_index_ne (slots : List Slot) (h : liveDisjoint slots) :
    (liveBlocks slots).Pairwise (fun a b => a.index ≠ b.index) := by
  have hf : (liveBlocks slots).Pairwise liveOk := h.filter _
  refine hf.imp_of_mem ?_
  intro a b ha hb hab
  have ha' : 0 < a.size := by
    have := (List.mem_filter.mp ha).2
    simpa using this
  have hb' : 0 < b.size := by
    have := (List.mem_filter.mp hb).2
    simpa using this
  rcases hab with h0 | h0 | h0 | h0
  · omega
  · omega
  · intro he; omega
  · intro he; omega

/-- Uniqueness of the address-sorted view: any offset-sorted permutation of
the live blocks of an overlap-free table is the one the code computes, so
the bubble sort of the source and the insertion sort of the embedding
agree. -/
theorem slots_sorted_unique (slots : List Slot) (bs : List Slot)
    (hdisj : liveDisjoint slots) (hperm : bs.Perm (liveBlocks slots))
    (hsorted : List.Sorted idxLe bs) :
    bs = sortByIndex (liveBlocks slots) := by
  have hne : (liveBlocks slots).Pairwise (fun a b => a.index ≠ b.index) :=
    liveBlocks_index_ne slots hdisj
  have hsymm : ∀ {a b : Slot}, a.index ≠ b.index → b.index ≠ a.index :=
    fun h he => h he.symm
  have hne_bs : bs.Pairwise (fun a b => a.index ≠ b.index) :=
    (List.Perm.pairwise_iff hsymm hperm).mpr hne
  have hperm2 : (sortByIndex (liveBlocks slots)).Perm (liveBlocks slots) :=
    List.perm_insertionSort idxLe (liveBlocks slots)
  have hne_sorted : (sortByIndex (liveBlocks slots)).Pairwise (fun a b => a.index ≠ b.index) :=
    (List.Perm.pairwise_iff hsymm hperm2).mpr hne
  have hsorted2 : List.Sorted idxLe (sortByIndex (liveBlocks slots)) :=
    List.sorted_insertionSort idxLe (liveBlocks slots)
  have hstrict1 : List.Sorted idxLt bs :=
    (hsorted.and hne_bs).imp (fun h => Nat.lt_of_le_of_ne h.1 h.2)
  have hstrict2 : List.Sorted idxLt (sortByIndex (liveBlocks slots)) :=
    (hsorted2.and hne_sorted).imp (fun h => Nat.lt_of_le_of_ne h.1 h.2)
  exact List.eq_of_perm_of_sorted (hperm.trans hperm2.symm) hstrict1 hstrict2

/-- C2: for every overlap-free table of in-bounds live blocks and every
positive request `S`, the locator implements the claim's first-fit rule
over any ascending-address view `bs` of the live blocks: offset 0 when
there are no live blocks and `S ≤ cap` (failing otherwise), offset 0 when
the first sorted block starts at or after `S`, otherwise the end of the
first block whose following gap is at least `S`, failing when no gap
fits. -/
theorem C2_first_fit_locator (cap : Nat) (slots : List Slot) (S : Nat) (bs : List Slot)
    (hS : 0 < S) (hdisj : liveDisjoint slots) (hbound : inBounds cap slots)
    (hperm : bs.Perm (liveBlocks slots)) (hsorted : List.Sorted idxLe bs) :
    find_free_offset cap slots S = spec_first_fit cap bs S := by
  have hbs : bs = sortByIndex (liveBlocks slots) :=
    slots_sorted_unique slots bs hdisj hperm hsorted
  rw [hbs]
  unfold find_free_offset
  cases hsort : sortByIndex (liveBlocks slots) with
  | nil => rfl
  | cons b rest =>
    simp only [spec_first_fit]
    by_cases h : S ≤ b.index
    · rw [if_pos (by exact h), if_pos h]
    · rw [if_neg (by exact h), if_neg h]
      rw [scan_gaps_eq_spec]
      rfl

/-- Concrete table for the C2 witness: two live blocks stored in
non-address order. -/
def C2slots : List Slot := [{ size := 10, index := 20 }, { size := 10, index := 0 }]

/-- Address-sorted view of the live blocks of `C2slots`. -/
def C2bs : List Slot := [{ size := 10, index := 0 }, { size := 10, index := 20 }]

/-- Witness for C2 at a concrete input. -/
theorem C2_witness :
    (0 < 15 ∧ liveDisjoint C2slots ∧ inBounds 100 C2slots ∧
      C2bs.Perm (liveBlocks C2slots) ∧ List.Sorted idxLe C2bs) ∧
    find_free_offset 100 C2slots 15 = spec_first_fit 100 C2bs 15 :=
  ⟨⟨by decide, by decide, by decide, by decide, by decide⟩,
    C2_first_fit_locator 100 C2slots 15 C2bs (by decide) (by decide) (by decide)
      (by decide) (by decide)⟩

/-- Live blocks of an overlap-free table are pairwise range-disjoint. -/
theorem live_pairwise_disjoint (slots : List Slot) (h : liveDisjoint slots) :
    (liveBlocks slots).Pairwise blockDisjoint := by
  have hf : (liveBlocks slots).Pairwise liveOk := h.filter _
  refine hf.imp_of_mem ?_
  intro a b ha hb hab
  have ha' : 0 < a.size := by
    have := (List.mem_filter.mp ha).2
    simpa using this
  have hb' : 0 < b.size := by
    have := (List.mem_filter.mp hb).2
    simpa using this
  rcases hab with h0 | h0 | h0
  · omega
  · omega
  · exact h0

/-- Consecutive-chaining of a block list: every earlier block ends at or
before every later block's start. -/
def chained (bs : List Slot) : Prop :=
  bs.Pairwise (fun a b => a.index + a.size ≤ b.index)

/-- An offset-sorted list of pairwise-disjoint live blocks is chained. -/
theorem chained_of_sorted_disjoint (bs : List Slot)
    (hs : List.Sorted idxLe bs) (hd : bs.Pairwise blockDisjoint)
    (hl : ∀ b ∈ bs, 0 < b.size) : chained bs := by
  refine (hs.and hd).imp_of_mem ?_
  intro a b _ hb hab
  have hb' : 0 < b.size := hl b hb
  have h1 : a.index ≤ b.index := hab.1
  rcases hab.2 with h2 | h2
  · exact h2
  · omega

/-- Any offset produced by the gap scan over a chained, in-bounds block
list starts at or after the head block, fits inside the arena, and is
disjoint from every block of the list. -/
theorem scan_gaps_fits (cap S : Nat) (hS : 0 < S) :
    ∀ (rest : List Slot) (b : Slot), chained (b :: rest) →
      (∀ x ∈ b :: rest, x.index + x.size ≤ cap) →
      ∀ off, scan_gaps cap S (b :: rest) = some off →
        b.index ≤ off ∧ off + S ≤ cap ∧
        (∀ x ∈ b :: rest, off + S ≤ x.index ∨ x.index + x.size ≤ off) := by
  intro rest
  induction rest with
  | nil =>
    intro b _ hbound off h
    simp only [scan_gaps] at h
    by_cases hc : cap - (b.index + b.size) ≥ S
    · rw [if_pos hc] at h
      cases h
      have hb : b.index + b.size ≤ cap := hbound b (List.mem_cons_self b [])
      refine ⟨by omega, by omega, ?_⟩
      intro x hx
      rcases List.mem_cons.mp hx with rfl | hx'
      · right; omega
      · simp at hx'
    · rw [if_neg hc] at h
      exact Option.noConfusion h
  | cons b2 rest2 ih =>
    intro b hch hbound off h
    simp only [scan_gaps] at h
    have hch2 : chained (b2 :: rest2) := (List.pairwise_cons.mp hch).2
    have hbb2 : b.index + b.size ≤ b2.index :=
      (List.pairwise_cons.mp hch).1 b2 (List.mem_cons_self b2 rest2)
    by_cases hc : b2.index - (b.index + b.size) ≥ S
    · rw [if_pos hc] at h
      cases h
      have hb2c : b2.index + b2.size ≤ cap := hbound b2 (by simp)
      refine ⟨by omega, by omega, ?_⟩
      intro x hx
      rcases List.mem_cons.mp hx with rfl | hx'
      · right; omega
      rcases List.mem_cons.mp hx' with rfl | hx''
      · left; omega
      · have hx3 : b2.index + b2.size ≤ x.index :=
          (List.pairwise_cons.mp hch2).1 x hx''
        left; omega
    · rw [if_neg hc] at h
      obtain ⟨h1, h2, h3⟩ := ih b2 hch2 (fun x hx => hbound x (List.mem_cons_of_mem b hx)) off h
      refine ⟨by omega, h2, ?_⟩
      intro x hx
      rcases List.mem_cons.mp hx with rfl | hx'
      · right; omega
      · exact h3 x hx'

/-- Any offset the locator returns for a positive request over an
overlap-free, in-bounds table fits inside the arena and is disjoint from
every live block. -/
theorem find_free_offset_fits (cap : Nat) (slots : List Slot) (S off : Nat)
    (hS : 0 < S) (hdisj : liveDisjoint slots) (hbound : inBounds cap slots)
    (h : find_free_offset cap slots S = some off) :
    off + S ≤ cap ∧
    ∀ x ∈ slots, 0 < x.size → (off + S ≤ x.index ∨ x.index + x.size ≤ off) := by
  have hperm : (sortByIndex (liveBlocks slots)).Perm (liveBlocks slots) :=
    List.perm_insertionSort idxLe (liveBlocks slots)
  have hsorted : List.Sorted idxLe (sortByIndex (liveBlocks slots)) :=
    List.sorted_insertionSort idxLe (liveBlocks slots)
  have hdisj' : (sortByIndex (liveBlocks slots)).Pairwise blockDisjoint :=
    (List.Perm.pairwise_iff (fun hx => hx.symm) hperm).mpr (live_pairwise_disjoint slots hdisj)
  have hmemtrans : ∀ x, x ∈ sortByIndex (liveBlocks slots) → x ∈ slots ∧ 0 < x.size := by
    intro x hx
    have hx2 : x ∈ liveBlocks slots := hperm.mem_iff.mp hx
    have := List.mem_filter.mp hx2
    exact ⟨this.1, by simpa using this.2⟩
  have hchain : chained (sortByIndex (liveBlocks slots)) :=
    chained_of_sorted_disjoint _ hsorted hdisj' (fun b hb => (hmemtrans b hb).2)
  have hin : ∀ x ∈ sortByIndex (liveBlocks slots), x.index + x.size ≤ cap :=
    fun x hx => hbound x (hmemtrans x hx).1 (hmemtrans x hx).2
  unfold find_free_offset at h
  cases hbs : sortByIndex (liveBlocks slots) with
  | nil =>
    simp only [hbs] at h
    by_cases hcap : S ≤ cap
    · rw [if_pos hcap] at h
      cases h
      refine ⟨by omega, ?_⟩
      intro x hx hxs
      exfalso
      have hx2 : x ∈ liveBlocks slots := List.mem_filter.mpr ⟨hx, by simpa using hxs⟩
      have hx3 : x ∈ sortByIndex (liveBlocks slots) := hperm.mem_iff.mpr hx2
      rw [hbs] at hx3
      simp at hx3
    · rw [if_neg hcap] at h
      exact Option.noConfusion h
  | cons b rest =>
    simp only [hbs] at h
    rw [hbs] at hchain hin hsorted
    by_cases hfirst : b.index ≥ S
    · rw [if_pos hfirst] at h
      cases h
      have hbin : b.index + b.size ≤ cap := hin b (List.mem_cons_self b rest)
      have hf2 : S ≤ b.index := hfirst
      refine ⟨by omega, ?_⟩
      intro x hx hxs
      have hx2 : x ∈ liveBlocks slots := List.mem_filter.mpr ⟨hx, by simpa using hxs⟩
      have hx3 : x ∈ sortByIndex (liveBlocks slots) := hperm.mem_iff.mpr hx2
      rw [hbs] at hx3
      left
      rcases List.mem_cons.mp hx3 with rfl | hx4
      · omega
      · have hbx : b.index ≤ x.index := (List.pairwise_cons.mp hsorted).1 x hx4
        omega
    · rw [if_neg hfirst] at h
      obtain ⟨hboff, hcap2, hdis⟩ := scan_gaps_fits cap S hS rest b hchain hin off h
      refine ⟨hcap2, ?_⟩
      intro x hx hxs
      have hx2 : x ∈ liveBlocks slots := List.mem_filter.mpr ⟨hx, by simpa using hxs⟩
      have hx3 : x ∈ sortByIndex (liveBlocks slots) := hperm.mem_iff.mpr hx2
      rw [hbs] at hx3
      exact hdis x hx3

/-- Decomposition of a successful registration: the first empty slot is
replaced by the new record and everything else is untouched. -/
theorem register_slot_decomp (slots slots2 : List Slot) (off S : Nat)
    (h : register_slot slots off S = some slots2) :
    ∃ l1 s0 l2, slots = l1 ++ s0 :: l2 ∧ s0.size = 0 ∧
      slots2 = l1 ++ { size := S, index := off } :: l2 := by
  induction slots generalizing slots2 with
  | nil => exact Option.noConfusion h
  | cons s rest ih =>
    by_cases hs : s.size = 0
    · simp only [register_slot, if_pos hs] at h
      cases h
      exact ⟨[], s, rest, rfl, hs, rfl⟩
    · simp only [register_slot, if_neg hs] at h
      cases hr : register_slot rest off S with
      | none => rw [hr] at h; exact Option.noConfusion h
      | some t =>
        rw [hr, Option.map_some'] at h
        cases h
        obtain ⟨l1, s0, l2, h1, h2, h3⟩ := ih t hr
        exact ⟨s :: l1, s0, l2, by rw [h1]; rfl, h2, by rw [h3]; rfl⟩

/-- Decomposition of a successful clear: the first slot whose offset
matches is replaced by the empty record and everything else is
untouched. -/
theorem clear_slot_decomp (slots slots2 : List Slot) (off : Nat)
    (h : clear_slot slots off = some slots2) :
    ∃ l1 s0 l2, slots = l1 ++ s0 :: l2 ∧
      slots2 = l1 ++ { size := 0, index := 0 } :: l2 := by
  induction slots generalizing slots2 with
  | nil => exact Option.noConfusion h
  | cons s rest ih =>
    by_cases hs : s.index = off
    · simp only [clear_slot, if_pos hs] at h
      cases h
      exact ⟨[], s, rest, rfl, rfl⟩
    · simp only [clear_slot, if_neg hs] at h
      cases hr : clear_slot rest off with
      | none => rw [hr] at h; exact Option.noConfusion h
      | some t =>
        rw [hr, Option.map_some'] at h
        cases h
        obtain ⟨l1, s0, l2, h1, h3⟩ := ih t hr
        exact ⟨s :: l1, s0, l2, by rw [h1]; rfl, by rw [h3]; rfl⟩

/-- Guarded disjointness is symmetric. -/
theorem liveOk_symm : ∀ {a b : Slot}, liveOk a b → liveOk b a := by
  intro a b h
  rcases h with h | h | h
  · exact Or.inr (Or.inl h)
  · exact Or.inl h
  · exact Or.inr (Or.inr h.symm)

/-- Replacing one table slot keeps the no-overlap property as long as the
replacement is compatible with every other slot. -/
theorem liveDisjoint_replace (l1 l2 : List Slot) (s0 newS : Slot)
    (h : liveDisjoint (l1 ++ s0 :: l2))
    (hnew : ∀ x ∈ l1 ++ l2, liveOk newS x) :
    liveDisjoint (l1 ++ newS :: l2) := by
  have h1 : List.Pairwise liveOk (s0 :: (l1 ++ l2)) :=
    (List.pairwise_middle liveOk_symm).mp h
  have h2 : List.Pairwise liveOk (l1 ++ l2) := (List.pairwise_cons.mp h1).2
  exact (List.pairwise_middle liveOk_symm).mpr (List.pairwise_cons.mpr ⟨hnew, h2⟩)

/-- Replacing one table slot keeps every live record in bounds as long as
the replacement is in bounds when live. -/
theorem inBounds_replace (cap : Nat) (l1 l2 : List Slot) (s0 newS : Slot)
    (h : inBounds cap (l1 ++ s0 :: l2))
    (hnew : 0 < newS.size → newS.index + newS.size ≤ cap) :
    inBounds cap (l1 ++ newS :: l2) := by
  intro x hx hxs
  rcases List.mem_append.mp hx with hx1 | hx2
  · exact h x (List.mem_append.mpr (Or.inl hx1)) hxs
  · rcases List.mem_cons.mp hx2 with rfl | hx3
    · exact hnew hxs
    · exact h x (List.mem_append.mpr (Or.inr (List.mem_cons_of_mem s0 hx3))) hxs

/-- Allocation preserves the table invariant. -/
theorem alloc_preserves_inv (cap : Nat) (st : AlphaAlocator) (S : Nat)
    (h : AllocInv cap st) : AllocInv cap (AlphaAlocator.alloc cap st S).1 := by
  obtain ⟨hd, hb⟩ := h
  unfold AlphaAlocator.alloc
  dsimp only
  split
  · exact ⟨hd, hb⟩
  · split
    · split
      · rename_i sc1 off hfind sc2 slots2 hreg
        obtain ⟨l1, s0, l2, he1, he2, he3⟩ := register_slot_decomp _ _ _ _ hreg
        rw [he1] at hd hb hfind
        subst he3
        by_cases hS0 : S = 0
        · subst hS0
          constructor
          · exact liveDisjoint_replace l1 l2 s0 _ hd (fun x _ => Or.inl rfl)
          · exact inBounds_replace cap l1 l2 s0 _ hb (fun h0 => absurd h0 (Nat.lt_irrefl 0))
        · have hpos : 0 < S := Nat.pos_of_ne_zero hS0
          obtain ⟨hcap, hfits⟩ :=
            find_free_offset_fits cap (l1 ++ s0 :: l2) S off hpos hd hb hfind
          constructor
          · refine liveDisjoint_replace l1 l2 s0 _ hd ?_
            intro x hx
            have hxmem : x ∈ l1 ++ s0 :: l2 := by
              rcases List.mem_append.mp hx with hx1 | hx2
              · exact List.mem_append.mpr (Or.inl hx1)
              · exact List.mem_append.mpr (Or.inr (List.mem_cons_of_mem s0 hx2))
            by_cases hxs : 0 < x.size
            · exact Or.inr (Or.inr (hfits x hxmem hxs))
            · exact Or.inr (Or.inl (by omega))
          · exact inBounds_replace cap l1 l2 s0 _ hb (fun _ => hcap)
      · exact ⟨hd, hb⟩
    · exact ⟨hd, hb⟩

/-- Deallocation preserves the table invariant. -/
theorem dealloc_preserves_inv (base cap : Nat) (st : AlphaAlocator) (ptr lsz : Nat)
    (h : AllocInv cap st) : AllocInv cap (AlphaAlocator.dealloc base cap st ptr lsz).1 := by
  obtain ⟨hd, hb⟩ := h
  unfold AlphaAlocator.dealloc
  split
  · split
    · rename_i off hoff slots2 hclear
      obtain ⟨l1, s0, l2, he1, he3⟩ := clear_slot_decomp _ _ _ hclear
      rw [he1] at hd hb
      subst he3
      constructor
      · exact liveDisjoint_replace l1 l2 s0 _ hd (fun x _ => Or.inl rfl)
      · exact inBounds_replace cap l1 l2 s0 _ hb (fun h0 => absurd h0 (Nat.lt_irrefl 0))
    · exact ⟨hd, hb⟩
  · exact ⟨hd, hb⟩

/-- The fresh allocator satisfies the table invariant. -/
theorem new_inv (cap : Nat) : AllocInv cap (AlphaAlocator.new cap) := by
  constructor
  · simp [AlphaAlocator.new, liveDisjoint, List.pairwise_replicate, liveOk]
  · intro x hx hxs
    simp only [AlphaAlocator.new, List.mem_replicate] at hx
    rw [hx.2] at hxs
    exact absurd hxs (Nat.lt_irrefl 0)

/-- Every operation preserves the table invariant. -/
theorem step_preserves_inv (base cap : Nat) (st : AlphaAlocator) (op : Op)
    (h : AllocInv cap st) : AllocInv cap (step base cap st op) := by
  cases op with
  | alloc s => exact alloc_preserves_inv cap st s h
  | dealloc p s => exact dealloc_preserves_inv base cap st p s h

/-- Folding any operation sequence preserves the table invariant. -/
theorem foldl_preserves_inv (base cap : Nat) (ops : List Op) (st : AlphaAlocator)
    (h : AllocInv cap st) : AllocInv cap (List.foldl (step base cap) st ops) := by
  induction ops generalizing st with
  | nil => exact h
  | cons op rest ih => exact ih _ (step_preserves_inv base cap st op h)

/-- The table invariant holds after every operation sequence. -/
theorem runOps_inv (base cap : Nat) (ops : List Op) :
    AllocInv cap (runOps base cap ops) :=
  foldl_preserves_inv base cap ops _ (new_inv cap)

/-- C3: after any sequence of allocate/deallocate operations from the fresh
allocator (and hence after every operation of any sequence, each prefix
being itself a sequence), no two live table records overlap: any two
distinct records with positive length occupy disjoint
`[index, index + size)` ranges. -/
theorem C3_no_overlap (base cap : Nat) (ops : List Op) :
    liveDisjoint (runOps base cap ops).used_slots :=
  (runOps_inv base cap ops).1
